import Mathlib

/-!
Verification of the semantic identifier-renaming engine of the
`lua-beautifier` repository (`src/server/variableAnalyzer.ts`).

The TypeScript source is shallowly embedded below.  Strings are modelled as
Lean `String` (a wrapper around `List Char`), and every scanning loop of the
source is rendered as a structural or fuel-based recursion (the fuel is always
at least the number of remaining characters, and every loop iteration of the
source consumes at least one character, so the fuel never runs out on the
inputs the wrappers supply).  JavaScript regular expressions are modelled by
bespoke total matchers that implement exactly the scanning/backtracking
behaviour of the concrete pattern they stand for; each matcher carries a
comment naming the pattern it embeds.
-/

namespace LuaBeautifier

/-! ### Character classes (JS `\w`, `[A-Za-z_]`, `\d`, `\s`) -/

/-- JS `\w` = `[A-Za-z0-9_]`. -/
def isWordChar (c : Char) : Bool := c.isAlpha || c.isDigit || c = '_'

/-- `[A-Za-z_]`, the first character of an identifier. -/
def isIdentStart (c : Char) : Bool := c.isAlpha || c = '_'

/-- JS `\s` restricted to the ASCII whitespace characters. -/
def isSpaceChar (c : Char) : Bool :=
  c = ' ' || c = '\t' || c = '\n' || c = '\r' || c = Char.ofNat 11 || c = Char.ofNat 12

/-- The single-quote character, written via its code point. -/
def squote : Char := Char.ofNat 39

/-! ### Small string/list utilities -/

/-- If `pat` is a prefix of `cs`, return the remainder. -/
def dropPre : List Char → List Char → Option (List Char)
  | [], cs => some cs
  | _ :: _, [] => none
  | p :: ps, c :: cs => if c = p then dropPre ps cs else none

/-- Substring test (scan every position for a prefix match). -/
def containsSubstrGo (pat : List Char) : List Char → Bool
  | [] => (dropPre pat []).isSome
  | c :: cs => (dropPre pat (c :: cs)).isSome || containsSubstrGo pat cs

/-- Does `hay` contain `pat` as a contiguous substring? -/
def containsSubstr (hay pat : String) : Bool := containsSubstrGo pat.data hay.data

/-- String membership in a list (JS `Set.has` / `Array.includes`). -/
def memStr : List String → String → Bool
  | [], _ => false
  | x :: xs, s => (s = x) || memStr xs s

/-- First-match association lookup (JS object property read `map[k]`). -/
def lookupRename : List (String × String) → String → Option String
  | [], _ => none
  | (k, v) :: rest, s => if s = k then some v else lookupRename rest s

/-- The member names of JS `Object.prototype`.  The source keeps
`propertyUsages` and the rename map as plain object literals, so a property
read `obj[k]` with `k` among these names and no own property `k` falls
through the prototype chain and yields a truthy function (or, for
`__proto__`, the prototype object) instead of `undefined`.  All twelve names
match the identifier pattern `[A-Za-z_][A-Za-z0-9_]*` of the scanners. -/
def objectProtoKeys : List String :=
  ["constructor", "hasOwnProperty", "isPrototypeOf", "propertyIsEnumerable",
   "toLocaleString", "toString", "valueOf", "__proto__",
   "__defineGetter__", "__defineSetter__", "__lookupGetter__", "__lookupSetter__"]

/-- Decidable equality for `Except`, used to evaluate the engine (which can
throw) on concrete inputs. -/
instance {ε α : Type _} [DecidableEq ε] [DecidableEq α] : DecidableEq (Except ε α)
  | .ok a, .ok b =>
    if h : a = b then .isTrue (by rw [h])
    else .isFalse (by intro hc; cases hc; exact h rfl)
  | .error a, .error b =>
    if h : a = b then .isTrue (by rw [h])
    else .isFalse (by intro hc; cases hc; exact h rfl)
  | .ok _, .error _ => .isFalse (by intro hc; cases hc)
  | .error _, .ok _ => .isFalse (by intro hc; cases hc)

/-- Trim ASCII whitespace from both ends (JS `String.prototype.trim`). -/
def trimString (s : String) : String :=
  String.mk (((s.data.dropWhile isSpaceChar).reverse.dropWhile isSpaceChar).reverse)

/-- Split on newline characters (JS `code.split("\n")`). -/
def splitLinesGo : List Char → List Char → List String
  | [], acc => [String.mk acc.reverse]
  | c :: rest, acc =>
    if c = '\n' then String.mk acc.reverse :: splitLinesGo rest []
    else splitLinesGo rest (c :: acc)

/-- `code.split("\n")`. -/
def splitLines (s : String) : List String := splitLinesGo s.data []

/-- `lines.join("\n")`. -/
def joinLines : List String → String
  | [] => ""
  | [l] => l
  | l :: rest => l ++ "\n" ++ joinLines rest

/-! ### Masking (`maskStringsAndComments`, `restoreMasked`)

`interface MaskPart { type: "str" | "longstr" | "comment"; text: string }`
`interface MaskData { masked: string; parts: MaskPart[] }`
-/

inductive MaskKind where
  | str
  | longstr
  | comment
deriving DecidableEq, Repr

structure MaskPart where
  kind : MaskKind
  text : String
deriving DecidableEq, Repr

structure MaskData where
  masked : String
  parts : List MaskPart
deriving DecidableEq, Repr

/-- The tag used in the placeholder token for each mask kind. -/
def maskKindTag : MaskKind → String
  | .str => "STR"
  | .longstr => "LONGSTR"
  | .comment => "COMMENT"

/-- The placeholder token `__MASK_<TAG>_<idx>__`. -/
def placeholderKey (k : MaskKind) (idx : Nat) : String :=
  "__MASK_" ++ maskKindTag k ++ "_" ++ Nat.repr idx ++ "__"

/-- Span of a long bracket after the opening `[[`: the loop
`while (j < L && !(src[j] === "]" && src[j+1] === "]")) j++` followed by
`src.slice(i, Math.min(j + 2, L))`.  Returns the consumed characters
(middle text plus the closing `]]` when present) and the rest. -/
def takeLongSpan : List Char → List Char × List Char
  | ']' :: ']' :: rest => ([']', ']'], rest)
  | c :: rest =>
    let (sp, r) := takeLongSpan rest
    (c :: sp, r)
  | [] => ([], [])

/-- Body of a quoted string after the opening quote `q`: the loop reading
characters, treating a backslash as an escape that also consumes the next
character, and stopping after an unescaped closing quote (or at end of
input).  Returns the consumed characters (including the closing quote when
present) and the rest. -/
def takeStrSpan (q : Char) : List Char → List Char × List Char
  | '\\' :: c2 :: rest =>
    let (sp, r) := takeStrSpan q rest
    ('\\' :: c2 :: sp, r)
  | ['\\'] => (['\\'], [])
  | c :: rest =>
    if c = q then ([c], rest)
    else
      let (sp, r) := takeStrSpan q rest
      (c :: sp, r)
  | [] => ([], [])

/-- One pass of the `while (i < L)` loop of `maskStringsAndComments`.  The
branches are checked in the source order: long bracket `[[`, quoted string,
comment (`--[[` block or `--` line), plain character.  `fuel` bounds the
number of loop iterations; the caller passes `length + 1`, which suffices
because every iteration consumes at least one character. -/
def maskLoop : Nat → List Char → List MaskPart → List Char → List Char × List MaskPart
  | 0, _, parts, out => (out, parts)
  | _ + 1, [], parts, out => (out, parts)
  | fuel + 1, c :: cs, parts, out =>
    if c = '[' ∧ cs.head? = some '[' then
      -- Long bracket [[ ... ]]
      let (sp, rest) := takeLongSpan cs.tail
      let text := String.mk ('[' :: '[' :: sp)
      let key := placeholderKey .longstr parts.length
      maskLoop fuel rest (parts ++ [⟨.longstr, text⟩]) (out ++ key.data)
    else if c = '"' ∨ c = squote then
      -- String ' or "
      let (sp, rest) := takeStrSpan c cs
      let text := String.mk (c :: sp)
      let key := placeholderKey .str parts.length
      maskLoop fuel rest (parts ++ [⟨.str, text⟩]) (out ++ key.data)
    else if c = '-' ∧ cs.head? = some '-' then
      -- Comment: --[[...]] or --...
      match cs.tail with
      | '[' :: '[' :: r2 =>
        let (sp, rest) := takeLongSpan r2
        let text := String.mk ('-' :: '-' :: '[' :: '[' :: sp)
        let key := placeholderKey .comment parts.length
        maskLoop fuel rest (parts ++ [⟨.comment, text⟩]) (out ++ key.data)
      | r2 =>
        let body := r2.takeWhile (fun d => ¬(d = '\n'))
        let rest := r2.dropWhile (fun d => ¬(d = '\n'))
        let text := String.mk ('-' :: '-' :: body)
        let key := placeholderKey .comment parts.length
        maskLoop fuel rest (parts ++ [⟨.comment, text⟩]) (out ++ key.data)
    else
      maskLoop fuel cs parts (out ++ [c])

/-- `function maskStringsAndComments(src: string): MaskData`. -/
def maskStringsAndComments (src : String) : MaskData :=
  let (out, parts) := maskLoop (src.data.length + 1) src.data [] []
  ⟨String.mk out, parts⟩

/-- Replace every (leftmost, non-overlapping) occurrence of `pat` in the text
by `rep`; the replacement text is not rescanned.  This is the semantics of
JS `text.split(key).join(rep)`.  `pat = []` is unreachable for the keys the
engine uses and leaves the text unchanged. -/
def replaceAllGo (pat rep : List Char) : Nat → List Char → List Char
  | 0, cs => cs
  | fuel + 1, cs =>
    match dropPre pat cs with
    | some rest => rep ++ replaceAllGo pat rep fuel rest
    | none =>
      match cs with
      | [] => []
      | c :: cs2 => c :: replaceAllGo pat rep fuel cs2

/-- `text.split(pat).join(rep)` for a non-empty `pat`. -/
def replaceAll (text pat rep : String) : String :=
  if pat.data = [] then text
  else String.mk (replaceAllGo pat.data rep.data (text.data.length + 1) text.data)

/-- `function restoreMasked(maskedText, maskData)`: for each part in index
order, replace every occurrence of its placeholder key with its text. -/
def restoreMasked (maskedText : String) (maskData : MaskData) : String :=
  (maskData.parts.enum).foldl
    (fun text p => replaceAll text (placeholderKey p.2.kind p.1) p.2.text)
    maskedText

/-! ### Regex models for `analyzeCode`

JS `line.match(re)` (no `g` flag) scans the positions of the line from the
left and returns the first position at which the whole pattern matches.
`scanFirstAux` implements that scan; `p` receives the previous character
(for `\b` word-boundary tests) and the remaining characters. -/

def scanFirstAux (p : Option Char → List Char → Option α) :
    Option Char → List Char → Option α
  | prev, [] => p prev []
  | prev, c :: cs =>
    match p prev (c :: cs) with
    | some r => some r
    | none => scanFirstAux p (some c) cs

/-- `\b` holds before the next character iff the previous one is absent or a
non-word character (all our patterns continue with a word character). -/
def boundaryOk : Option Char → Bool
  | none => true
  | some c => !isWordChar c

/-- Greedy `[A-Za-z_][A-Za-z0-9_]*`: the parsed identifier and the rest. -/
def parseIdent : List Char → Option (List Char × List Char)
  | [] => none
  | c :: cs =>
    if isIdentStart c then some (c :: cs.takeWhile isWordChar, cs.dropWhile isWordChar)
    else none

/-- Does the list start with at least one `\s` character? -/
def headIsSpace : List Char → Bool
  | c :: _ => isSpaceChar c
  | [] => false

/-- After an identifier-like match, `\b` requires the next character to be
absent or a non-word character. -/
def boundaryAfter : List Char → Bool
  | [] => true
  | c :: _ => !isWordChar c

/-- Match of `\bfunction\s+([A-Za-z_][A-Za-z0-9_]*)\s*\(([^)]*)\)` at one
position: returns the captured name and argument text. -/
def funcHeaderAt (prev : Option Char) (cs : List Char) : Option (String × String) := do
  guard (boundaryOk prev)
  let r0 ← dropPre "function".data cs
  guard (headIsSpace r0)
  let r1 := r0.dropWhile isSpaceChar
  let (n, r2) ← parseIdent r1
  let r3 := r2.dropWhile isSpaceChar
  match r3 with
  | '(' :: r4 =>
    let args := r4.takeWhile (fun c => ¬(c = ')'))
    let r5 := r4.dropWhile (fun c => ¬(c = ')'))
    guard (r5 ≠ [])
    pure (String.mk n, String.mk args)
  | _ => none

/-- Match of `\blocal\s+function\s+([A-Za-z_][A-Za-z0-9_]*)\s*\(([^)]*)\)`
at one position. -/
def localFuncHeaderAt (prev : Option Char) (cs : List Char) : Option (String × String) := do
  guard (boundaryOk prev)
  let r0 ← dropPre "local".data cs
  guard (headIsSpace r0)
  funcHeaderAt (some ' ') (r0.dropWhile isSpaceChar)

/-- `let fm = line.match(/\bfunction .../); if (localFuncMatch) fm = localFuncMatch`:
a `local function` match takes precedence, otherwise the plain match.  (A
`local function` header always also matches the plain pattern, so trying the
local form first is equivalent.) -/
def headerMatch (line : String) : Option (String × String) :=
  match scanFirstAux localFuncHeaderAt none line.data with
  | some r => some r
  | none => scanFirstAux funcHeaderAt none line.data

/-- Match of `\bend\b` at one position. -/
def endKeywordAt (prev : Option Char) (cs : List Char) : Option Unit := do
  guard (boundaryOk prev)
  let r ← dropPre "end".data cs
  guard (boundaryAfter r)
  pure ()

/-- `/\bend\b/.test(line)`. -/
def lineHasEndKeyword (line : String) : Bool :=
  (scanFirstAux endKeywordAt none line.data).isSome

/-- Greedy `(?:\s*,\s*[A-Za-z_][A-Za-z0-9_]*)*` continuation of the local
name list; on a failed comma step the position is restored. -/
def nameListLoop : Nat → List (List Char) → List Char → List (List Char) × List Char
  | 0, acc, rest => (acc.reverse, rest)
  | fuel + 1, acc, rest =>
    match rest.dropWhile isSpaceChar with
    | ',' :: t =>
      match parseIdent (t.dropWhile isSpaceChar) with
      | some (n, r2) => nameListLoop fuel (n :: acc) r2
      | none => (acc.reverse, rest)
    | _ => (acc.reverse, rest)

/-- Match of
`\blocal\s+([A-Za-z_][A-Za-z0-9_]*(?:\s*,\s*[A-Za-z_][A-Za-z0-9_]*)*)\s*(?:=\s*(.+))?`
at one position.  The second component is `m[2] ? m[2].trim() : ""`; the
`\s*`/`(.+)` backtracking makes that equal to trimming everything after the
`=` (empty when the optional group is absent). -/
def localDeclAt (prev : Option Char) (cs : List Char) : Option (List String × String) := do
  guard (boundaryOk prev)
  let r0 ← dropPre "local".data cs
  guard (headIsSpace r0)
  let (n0, r1) ← parseIdent (r0.dropWhile isSpaceChar)
  let (names, r2) := nameListLoop (r1.length + 1) [n0] r1
  match r2.dropWhile isSpaceChar with
  | '=' :: afterEq => pure (names.map String.mk, trimString (String.mk afterEq))
  | _ => pure (names.map String.mk, "")

/-- `line.match(/\blocal\s+...\s*(?:=\s*(.+))?/)` with the rhs trimmed. -/
def matchLocalDecl (line : String) : Option (List String × String) :=
  scanFirstAux localDeclAt none line.data

/-- `line.match(/^\s*([A-Za-z_][A-Za-z0-9_]*)\s*=\s*(.+)$/)` with the rhs
trimmed: the pattern is anchored, and `(.+)` requires at least one
character after the `=`. -/
def matchGlobal (line : String) : Option (String × String) := do
  let (n, r1) ← parseIdent (line.data.dropWhile isSpaceChar)
  match r1.dropWhile isSpaceChar with
  | '=' :: afterEq =>
    if afterEq = [] then none
    else pure (String.mk n, trimString (String.mk afterEq))
  | _ => none

/-- Match of `([A-Za-z_][A-Za-z0-9_]*)\s*(?:\.|:)\s*([A-Za-z_][A-Za-z0-9_]*)`
at one position: the `(object, property)` pair and the rest after the match. -/
def propPairAt (cs : List Char) : Option ((String × String) × List Char) := do
  let (obj, r1) ← parseIdent cs
  match r1.dropWhile isSpaceChar with
  | c :: r2 =>
    if c = '.' ∨ c = ':' then do
      let (prop, r3) ← parseIdent (r2.dropWhile isSpaceChar)
      pure ((String.mk obj, String.mk prop), r3)
    else none
  | [] => none

/-- All matches of the (global-flag) property regex on one line, in order:
repeatedly find the leftmost match and continue after its end. -/
def scanProps : Nat → List Char → List (String × String)
  | 0, _ => []
  | _ + 1, [] => []
  | fuel + 1, c :: cs =>
    match propPairAt (c :: cs) with
    | some (pr, rest) => pr :: scanProps fuel rest
    | none => scanProps fuel cs

/-! ### `analyzeCode` -/

structure LocalDecl where
  name : String
  rhs : String
  lineNo : Nat
deriving DecidableEq, Repr

structure FuncRec where
  name : String
  args : String
  start : Nat
  endLine : Nat
  rawBody : String
  flines : List String
deriving DecidableEq, Repr

structure CodeAnalysis where
  locals : List LocalDecl
  globals : List LocalDecl
  functions : List FuncRec
  propertyUsages : List (String × List String)
  lines : List String
deriving DecidableEq, Repr

/-- A frame of the `funcStack`. -/
structure FuncFrame where
  name : String
  args : String
  start : Nat
  flines : List String
deriving DecidableEq, Repr

/-- One iteration of the first loop of `analyzeCode`: a header line pushes a
frame; a line matching `\bend\b` while the stack is non-empty pops the top
frame and emits a complete record; any other line is appended to the
innermost open frame's `lines`. -/
def scanStep (allLines : List String) (line : String) (li : Nat)
    (stack : List FuncFrame) (acc : List FuncRec) :
    List FuncFrame × List FuncRec :=
  match headerMatch line with
  | some (fname, fargs) => (⟨fname, fargs, li, []⟩ :: stack, acc)
  | none =>
    if lineHasEndKeyword line then
      match stack with
      | f :: stackRest =>
        let body := joinLines ((allLines.drop (f.start + 1)).take (li - (f.start + 1)))
        (stackRest, acc ++ [⟨f.name, f.args, f.start, li, body, f.flines⟩])
      | [] => ([], acc)
    else
      match stack with
      | top :: stackRest =>
        ({ top with flines := top.flines ++ [line] } :: stackRest, acc)
      | [] => ([], acc)

/-- First loop of `analyzeCode`: collect function blocks. -/
def scanFunctions (allLines : List String) :
    List String → Nat → List FuncFrame → List FuncRec → List FuncRec
  | [], _, _, acc => acc
  | line :: rest, li, stack, acc =>
    let st := scanStep allLines line li stack acc
    scanFunctions allLines rest (li + 1) st.1 st.2

/-- Record a property usage:
`propertyUsages[obj] = propertyUsages[obj] || new Set(); propertyUsages[obj].add(prop)`.
When `obj` already has an own entry it is a `Set` and the property is added
(insertion-ordered set semantics).  When it has no own entry, a name among
`Object.prototype`'s members reads the inherited truthy member, so
`|| new Set()` never runs and `.add` is invoked on a non-`Set` — the JS code
throws a `TypeError`, modelled as `Except.error`.  (Such a name can
therefore never acquire an own entry.)  Otherwise the read is `undefined`
and a fresh set is installed. -/
def addProp : List (String × List String) → String → String →
    Except String (List (String × List String))
  | [], obj, prop =>
    if memStr objectProtoKeys obj then
      .error "TypeError: propertyUsages[obj].add is not a function"
    else .ok [(obj, [prop])]
  | (o, ps) :: rest, obj, prop =>
    if o = obj then .ok ((o, if memStr ps prop then ps else ps ++ [prop]) :: rest)
    else do
      let rest2 ← addProp rest obj prop
      .ok ((o, ps) :: rest2)

/-- Fold the matched property pairs of one line into the usage index,
propagating the `TypeError` of the first offending pair. -/
def foldProps : List (String × String) → List (String × List String) →
    Except String (List (String × List String))
  | [], pu => .ok pu
  | pr :: rest, pu => do
    let pu2 ← addProp pu pr.1 pr.2
    foldProps rest pu2

/-- Second and third loops of `analyzeCode`: local declarations, globals and
property usages, line by line.  The property pass can throw (see `addProp`),
which aborts `analyzeCode` exactly as the JS exception does. -/
def scanDecls :
    List String → Nat → List LocalDecl → List LocalDecl →
    List (String × List String) →
    Except String (List LocalDecl × List LocalDecl × List (String × List String))
  | [], _, locs, globs, pu => .ok (locs, globs, pu)
  | line :: rest, li, locs, globs, pu =>
    let locs :=
      match matchLocalDecl line with
      | some (names, rhs) => locs ++ names.map (fun n => ⟨n, rhs, li⟩)
      | none => locs
    let globs :=
      match matchGlobal line with
      | some (n, rhs) => globs ++ [⟨n, rhs, li⟩]
      | none => globs
    match foldProps (scanProps (line.data.length + 1) line.data) pu with
    | .error e => .error e
    | .ok pu2 => scanDecls rest (li + 1) locs globs pu2

/-- `function analyzeCode(code: string): CodeAnalysis`.  Returns
`Except.error` when the JS function throws (the `propertyUsages`
prototype-chain `TypeError`); partial results are then discarded, as the
exception discards them in JS. -/
def analyzeCode (code : String) : Except String CodeAnalysis :=
  let lines := splitLines code
  let functions := scanFunctions lines lines 0 [] []
  match scanDecls lines 0 [] [] [] with
  | .error e => .error e
  | .ok decls => .ok ⟨decls.1, decls.2.1, functions, decls.2.2, lines⟩

/-! ### `buildRenameMap` and its classifier `inferFromRHS` -/

/-- Match of `game:GetService\(["']([^"']+)["']\)` at one position. -/
def getServiceAt (_prev : Option Char) (cs : List Char) : Option String := do
  let r0 ← dropPre "game:GetService(".data cs
  match r0 with
  | q :: r1 =>
    if q = '"' ∨ q = squote then
      let content := r1.takeWhile (fun c => ¬(c = '"' ∨ c = squote))
      let r2 := r1.dropWhile (fun c => ¬(c = '"' ∨ c = squote))
      if content = [] then none
      else
        match r2 with
        | q2 :: ')' :: _ =>
          if q2 = '"' ∨ q2 = squote then some (String.mk content) else none
        | _ => none
    else none
  | [] => none

/-- `rhs.match(/game:GetService\(["']([^"']+)["']\)/)`, capture 1. -/
def matchGetService (rhs : String) : Option String :=
  scanFirstAux getServiceAt none rhs.data

/-- The `(?:\.[A-Za-z_][A-Za-z0-9_]*)+$` tail of the member-chain pattern:
segments after the first, anchored at the end of the string. -/
def chainSegsLoop : Nat → List (List Char) → List Char → Option (List (List Char))
  | 0, _, _ => none
  | _ + 1, acc, [] => if acc.length ≥ 2 then some acc.reverse else none
  | fuel + 1, acc, '.' :: t =>
    match parseIdent t with
    | some (s, r2) => chainSegsLoop fuel (s :: acc) r2
    | none => none
  | _ + 1, _, _ => none

/-- Match of `([A-Za-z_][A-Za-z0-9_]*(?:\.[A-Za-z_][A-Za-z0-9_]*)+)$` at one
position: the whole remaining text must be a dotted identifier chain. -/
def chainTailAt (_prev : Option Char) (cs : List Char) : Option (List (List Char)) := do
  let (s0, r0) ← parseIdent cs
  chainSegsLoop (r0.length + 1) [s0] r0

/-- `rhs.match(/([A-Za-z_][A-Za-z0-9_]*(?:\.[A-Za-z_][A-Za-z0-9_]*)+)$/)`:
the segments of the matched chain (leftmost start reaching the end). -/
def matchChainTail (rhs : String) : Option (List (List Char)) :=
  scanFirstAux chainTailAt none rhs.data

/-- `/^[A-Za-z_]\w*$/.test(s)`. -/
def identFull (cs : List Char) : Bool :=
  match cs with
  | c :: rest => isIdentStart c && rest.all isWordChar
  | [] => false

/-- Match of `Instance\.new\(["']([^"']+)["']` at one position. -/
def instanceNewAt (_prev : Option Char) (cs : List Char) : Option String := do
  let r0 ← dropPre "Instance.new(".data cs
  match r0 with
  | q :: r1 =>
    if q = '"' ∨ q = squote then
      let content := r1.takeWhile (fun c => ¬(c = '"' ∨ c = squote))
      let r2 := r1.dropWhile (fun c => ¬(c = '"' ∨ c = squote))
      if content = [] then none
      else
        match r2 with
        | q2 :: _ => if q2 = '"' ∨ q2 = squote then some (String.mk content) else none
        | [] => none
    else none
  | [] => none

/-- `rhs.match(/Instance\.new\(["']([^"']+)["']/)`, capture 1. -/
def matchInstanceNew (rhs : String) : Option String :=
  scanFirstAux instanceNewAt none rhs.data

/-- The `uiMap` alias table of `inferFromRHS`. -/
def uiMap : List (String × String) :=
  [("ScreenGui", "MainGui"), ("Frame", "MainFrame"), ("TextLabel", "TitleLabel"),
   ("TextButton", "ActionButton"), ("ImageButton", "ImageButton"),
   ("TextBox", "TextBox"), ("UIStroke", "OutlineStroke"),
   ("UICorner", "FrameCorners"), ("ScrollingFrame", "ScrollingFrame"),
   ("ViewportFrame", "ViewportFrame")]

/-- Match of `\btrue\b` or `\bfalse\b` at one position. -/
def boolLitAt (prev : Option Char) (cs : List Char) : Option Unit := do
  guard (boundaryOk prev)
  match dropPre "true".data cs with
  | some r => if boundaryAfter r then pure () else failure
  | none =>
    match dropPre "false".data cs with
    | some r => if boundaryAfter r then pure () else failure
    | none => failure

/-- `/\b(true|false)\b/.test(rhs)`. -/
def hasBoolLit (rhs : String) : Bool := (scanFirstAux boolLitAt none rhs.data).isSome

/-- `/^\d+(\.\d+)?$/.test(rhs)`. -/
def numericLit (rhs : String) : Bool :=
  let ds := rhs.data.takeWhile Char.isDigit
  let rest := rhs.data.dropWhile Char.isDigit
  if ds = [] then false
  else
    match rest with
    | [] => true
    | '.' :: q => !q.isEmpty && q.all Char.isDigit
    | _ => false

/-- The `prefer` list of the property-usage fallback. -/
def preferProps : List String :=
  ["LocalPlayer", "Character", "Humanoid", "HumanoidRootPart", "CurrentCamera",
   "Animator", "Position", "Velocity", "Size"]

/-- First element of `prefer` contained in `props`. -/
def firstPreferred (props : List String) : List String → Option String
  | [] => none
  | p :: rest => if memStr props p then some p else firstPreferred props rest

/-- `function inferFromRHS(rhs, nameHintFromProps?)`. -/
def inferFromRHS (rhs : String) (nameHintFromProps : Option (List String)) :
    Option String :=
  if rhs = "" then none
  else
    -- game:GetService("X")
    match matchGetService rhs with
    | some x => some x
    | none =>
    -- game.Players or workspace.Foo (trailing member chain)
    match matchChainTail rhs with
    | some segs =>
      let last := segs.getLastD []
      if identFull last then some (String.mk last)
      else fallbackInfer rhs nameHintFromProps
    | none => fallbackInfer rhs nameHintFromProps
where
  /-- Rules after the member-chain rule. -/
  fallbackInfer (rhs : String) (nameHintFromProps : Option (List String)) :
      Option String :=
    -- Instance.new("Class")
    match matchInstanceNew rhs with
    | some cls =>
      match lookupRename uiMap cls with
      | some friendly => some friendly
      | none => some cls
    | none =>
    -- Vector3.new / UDim2.new
    if containsSubstr rhs "Vector3.new" then some "Vector3Value"
    else if containsSubstr rhs "UDim2.new" then some "UDim2Value"
    -- Boolean literal
    else if hasBoolLit rhs then some "Enabled"
    -- Numeric literal
    else if numericLit rhs then some "Number"
    -- Fallback to properties
    else
      match nameHintFromProps with
      | some props =>
        if props.isEmpty then none
        else
          match firstPreferred props preferProps with
          | some p => some p
          | none => props.head?
      | none => none

/-- `function capitalize(s)`. -/
def capitalize (s : String) : String :=
  match s.data with
  | [] => s
  | c :: rest => String.mk (c.toUpper :: rest)

/-- The `while (usedNames.has(name)) { name = base + i; i++ }` loop.  The
candidates `base`, `base1`, `base2`, … are pairwise distinct, so at most
`used.length` of them can collide and fuel `used.length + 1` always reaches
a fresh name. -/
def uniqueNameLoop (used : List String) (base : String) :
    Nat → String → Nat → String
  | 0, name, _ => name
  | fuel + 1, name, i =>
    if memStr used name then uniqueNameLoop used base fuel (base ++ Nat.repr i) (i + 1)
    else name

/-- `function uniqueName(base)`: the fresh name and the extended used set. -/
def uniqueName (used : List String) (base : String) : String × List String :=
  let n := uniqueNameLoop used base (used.length + 1) base 1
  (n, used ++ [n])

/-- Match of `/^(v|vu|_v)(\d+)/i` on the old name: the digit capture.  The
alternatives are tried in order; each must be followed by at least one
digit (taken greedily). -/
def matchObfuscated (old : String) : Option String :=
  let lower := old.data.map Char.toLower
  match lower with
  | 'v' :: rest =>
    let ds := rest.takeWhile Char.isDigit
    if ¬ds.isEmpty then some (String.mk ds)
    else
      match rest with
      | 'u' :: rest2 =>
        let ds2 := rest2.takeWhile Char.isDigit
        if ¬ds2.isEmpty then some (String.mk ds2) else none
      | _ => none
  | '_' :: 'v' :: rest =>
    let ds := rest.takeWhile Char.isDigit
    if ¬ds.isEmpty then some (String.mk ds) else none
  | _ => none

/-- `/^_[a-z]/.test(old)`. -/
def tempUnderscore (old : String) : Bool :=
  match old.data with
  | '_' :: c :: _ => 'a' ≤ c && c ≤ 'z'
  | _ => false

/-- `old.replace(/^_+/, "")`. -/
def stripLeadingUnderscores (old : String) : String :=
  String.mk (old.data.dropWhile (fun c => c = '_'))

/-- The `keywords` set of the `buildRenameMap` keyword-collision check
(exactly the fifteen entries of the source). -/
def keywordsList : List String :=
  ["local", "function", "end", "if", "then", "else", "true", "false", "nil",
   "return", "for", "while", "do", "repeat", "until"]

/-- The `protected_names` array of `buildRenameMap`. -/
def protectedNames : List String :=
  ["game", "workspace", "script", "require", "print", "warn",
   "Instance", "UDim2", "Vector3", "Color3"]

/-- `:\s*Connect\b` / `\.Connect\b` tests at one position. -/
def connectAt (lead : Char) (spaces : Bool) (_prev : Option Char) (cs : List Char) :
    Option Unit := do
  match cs with
  | c :: r0 =>
    if c = lead then
      let r1 := if spaces then r0.dropWhile isSpaceChar else r0
      let r2 ← dropPre "Connect".data r1
      if boundaryAfter r2 then pure () else failure
    else failure
  | [] => failure

/-- `/:\s*Connect\b/.test(body) || /\.Connect\b/.test(body) || /Connect\(/.test(body)`. -/
def connectTest (body : String) : Bool :=
  (scanFirstAux (connectAt ':' true) none body.data).isSome ||
  (scanFirstAux (connectAt '.' false) none body.data).isSome ||
  containsSubstr body "Connect("

/-- `/Heartbeat|RenderStepped|Stepped/.test(body)`. -/
def heartbeatTest (body : String) : Bool :=
  containsSubstr body "Heartbeat" || containsSubstr body "RenderStepped" ||
  containsSubstr body "Stepped"

/-- Options parameter of `buildRenameMap` (declared by the source but never
read inside the function body). -/
structure RenameOptions where
  renameVariables : Bool
  renameFunctions : Bool
  renameGlobals : Bool
deriving DecidableEq, Repr

/-- Look up the property-usage set of one identifier
(`analysis.propertyUsages[old]`).  For a name inherited from
`Object.prototype` the JS read yields a truthy non-`Set`; returning `none`
is behaviourally equal, because the only consumer guards with
`nameHintFromProps && nameHintFromProps.size` (undefined `.size` on the
inherited member), and such names are in any case skipped by the
`if (map[old])` guard before this read and can never be stored in the index
(`addProp` throws first). -/
def lookupProps : List (String × List String) → String → Option (List String)
  | [], _ => none
  | (o, ps) :: rest, s => if s = o then some ps else lookupProps rest s

/-- State threaded through `buildRenameMap`: the map (insertion-ordered) and
the `usedNames` set. -/
abbrev RenameState := List (String × String) × List String

/-- Step of the locals loop of `buildRenameMap`.  The guard models
`if (map[old]) continue` on the plain-object map: it is truthy for an own
entry (values are never empty) and also for a name inherited from
`Object.prototype` (e.g. `constructor`, `toString`), so such locals are
silently skipped and never renamed. -/
def buildLocalStep (propertyUsages : List (String × List String))
    (st : RenameState) (loc : LocalDecl) : RenameState :=
  let (map, used) := st
  if (lookupRename map loc.name).isSome || memStr objectProtoKeys loc.name then st
  else
    let props := lookupProps propertyUsages loc.name
    match inferFromRHS loc.rhs props with
    | some inferred =>
      let (n, used2) := uniqueName used inferred
      (map ++ [(loc.name, n)], used2)
    | none =>
      match matchObfuscated loc.name with
      | some ds =>
        let (n, used2) := uniqueName used ("Variable" ++ ds)
        (map ++ [(loc.name, n)], used2)
      | none =>
        if tempUnderscore loc.name then
          let (n, used2) := uniqueName used ("Temp_" ++ stripLeadingUnderscores loc.name)
          (map ++ [(loc.name, n)], used2)
        else
          let (n, used2) := uniqueName used "Value"
          (map ++ [(loc.name, n)], used2)

/-- Step of the globals loop of `buildRenameMap`; the guard is truthy also
for names inherited from `Object.prototype` (see `buildLocalStep`). -/
def buildGlobalStep (propertyUsages : List (String × List String))
    (st : RenameState) (g : LocalDecl) : RenameState :=
  let (map, used) := st
  if (lookupRename map g.name).isSome || memStr objectProtoKeys g.name then st
  else
    match inferFromRHS g.rhs (lookupProps propertyUsages g.name) with
    | some inferred =>
      let (n, used2) := uniqueName used inferred
      (map ++ [(g.name, n)], used2)
    | none =>
      let (n, used2) := uniqueName used "Global"
      (map ++ [(g.name, n)], used2)

/-- Step of the functions loop of `buildRenameMap`; the guard is truthy
also for names inherited from `Object.prototype` (see `buildLocalStep`). -/
def buildFunctionStep (st : RenameState) (f : FuncRec) : RenameState :=
  let (map, used) := st
  if (lookupRename map f.name).isSome || memStr objectProtoKeys f.name then st
  else
    let body := if f.rawBody ≠ "" then f.rawBody else joinLines f.flines
    match matchInstanceNew body with
    | some cls =>
      let (n, used2) := uniqueName used ("Create" ++ capitalize cls)
      (map ++ [(f.name, n)], used2)
    | none =>
      if connectTest body then
        let (n, used2) := uniqueName used "OnEvent"
        (map ++ [(f.name, n)], used2)
      else if heartbeatTest body then
        let (n, used2) := uniqueName used "OnHeartbeat"
        (map ++ [(f.name, n)], used2)
      else
        let (n, used2) := uniqueName used "Function"
        (map ++ [(f.name, n)], used2)

/-- `function buildRenameMap(analysis, options)`.  After the three loops the
source rewrites any value that is a reserved keyword to `"_" + value`, and
only then adds the `protected_names` to `usedNames` (which at that point has
no further effect on the returned map). -/
def buildRenameMap (analysis : CodeAnalysis) (_options : RenameOptions) :
    List (String × String) :=
  let st0 : RenameState := ([], [])
  let st1 := analysis.locals.foldl (buildLocalStep analysis.propertyUsages) st0
  let st2 := analysis.globals.foldl (buildGlobalStep analysis.propertyUsages) st1
  let st3 := analysis.functions.foldl buildFunctionStep st2
  let map := st3.1.map
    (fun kv => if memStr keywordsList kv.2 then (kv.1, "_" ++ kv.2) else kv)
  let _usedFinal := st3.2 ++ protectedNames
  map

/-! ### `replaceIdentifiersInSegment` and `applyRenamesMaskSafe`

`replaceIdentifiersInSegment` applies
`new RegExp("\\b(" + escapedKeys.join("|") + ")\\b", "g")` with the
replacement `renameMap[p1] || m`.  All keys the engine produces are
identifiers (`[A-Za-z_][A-Za-z0-9_]*`); a `\b`-anchored alternation of such
keys matches exactly the maximal `\w`-runs of the segment that equal a key
(a boundary is required on both sides, so no proper sub-run can match, and
at most one alternative can equal a given run, making the
descending-length key sort of the source immaterial).  The replacement is
therefore modelled token-wise: the segment is split into maximal word runs
and single non-word characters, and each run that is a key of the map is
replaced by its value. -/

inductive Tok where
  | run : List Char → Tok
  | sym : Char → Tok
deriving DecidableEq, Repr

/-- Prepend a word character to the token list, extending a leading run. -/
def pushRun (c : Char) : List Tok → List Tok
  | .run r :: t => .run (c :: r) :: t
  | t => .run [c] :: t

/-- Split a character list into maximal word runs and single non-word
characters. -/
def tokenize : List Char → List Tok
  | [] => []
  | c :: cs => if isWordChar c then pushRun c (tokenize cs) else .sym c :: tokenize cs

/-- Concatenate a token list back into characters. -/
def renderToks : List Tok → List Char
  | [] => []
  | .run r :: t => r ++ renderToks t
  | .sym c :: t => c :: renderToks t

/-- `renameMap[p1] || m`: replace a word run that is a key of the map. -/
def substRun (renameMap : List (String × String)) (r : List Char) : List Char :=
  match lookupRename renameMap (String.mk r) with
  | some v => v.data
  | none => r

/-- Apply `substRun` to every run token. -/
def mapRuns (renameMap : List (String × String)) : List Tok → List Tok
  | [] => []
  | .run r :: t => .run (substRun renameMap r) :: mapRuns renameMap t
  | .sym c :: t => .sym c :: mapRuns renameMap t

/-- `function replaceIdentifiersInSegment(seg, renameMap)`. -/
def replaceIdentifiersInSegment (seg : String)
    (renameMap : List (String × String)) : String :=
  if seg = "" then seg
  else if renameMap = [] then seg
  else String.mk (renderToks (mapRuns renameMap (tokenize seg.data)))

/-- Parse `__MASK_(STR|LONGSTR|COMMENT)_(\d+)__` at the head of the list:
the matched token text and the rest.  The digits are taken greedily and
must be followed by `__` (backtracking cannot move the digit boundary, as
`_` is not a digit). -/
def placeholderKind (r1 : List Char) (tag : String) :
    Option (List Char × List Char) := do
  let r2 ← dropPre (tag ++ "_").data r1
  let ds := r2.takeWhile Char.isDigit
  let r3 := r2.dropWhile Char.isDigit
  if ds = [] then none
  else
    match dropPre "__".data r3 with
    | some r4 => some (("__MASK_" ++ tag ++ "_").data ++ ds ++ ['_', '_'], r4)
    | none => none

/-- Placeholder match at the head of the list, trying the alternation
`STR`, `LONGSTR`, `COMMENT` in order. -/
def placeholderAt (cs : List Char) : Option (List Char × List Char) := do
  let r1 ← dropPre "__MASK_".data cs
  match placeholderKind r1 "STR" with
  | some r => some r
  | none =>
    match placeholderKind r1 "LONGSTR" with
    | some r => some r
    | none => placeholderKind r1 "COMMENT"

/-- The `while ((m = placeholderRegex.exec(masked)) !== null)` loop: emit
each segment (replaced) and each placeholder token (verbatim), scanning
left to right. -/
def applyRenamesLoop (renameMap : List (String × String)) :
    Nat → List Char → List Char → List Char
  | 0, cs, segAcc => (replaceIdentifiersInSegment (String.mk (segAcc.reverse ++ cs)) renameMap).data
  | _ + 1, [], segAcc => (replaceIdentifiersInSegment (String.mk segAcc.reverse) renameMap).data
  | fuel + 1, c :: cs, segAcc =>
    match placeholderAt (c :: cs) with
    | some (tok, rest) =>
      (replaceIdentifiersInSegment (String.mk segAcc.reverse) renameMap).data ++
        tok ++ applyRenamesLoop renameMap fuel rest []
    | none => applyRenamesLoop renameMap fuel cs (c :: segAcc)

/-- `function applyRenamesMaskSafe(masked, renameMap, maskData)` (the
`maskData` parameter is declared but unused by the source body). -/
def applyRenamesMaskSafe (masked : String) (renameMap : List (String × String))
    (_maskData : MaskData) : String :=
  String.mk (applyRenamesLoop renameMap (masked.data.length + 1) masked.data [])

/-- `export function smartRename(code: string): string`.  The function has
no internal try/catch, so the `TypeError` thrown by `analyzeCode`'s
property pass propagates to the caller; the embedding returns it as
`Except.error`. -/
def smartRename (code : String) : Except String String :=
  let options : RenameOptions := ⟨true, true, true⟩
  -- 1) Extract and mask strings & long brackets & comments
  let maskData := maskStringsAndComments code
  let working := maskData.masked
  -- 2) Analyze declarations/usages
  match analyzeCode working with
  | .error e => .error e
  | .ok analysis =>
    -- 3) Build rename map with capitalized type names
    let renameMap := buildRenameMap analysis options
    -- 4) Apply renames safely
    let renamed := applyRenamesMaskSafe working renameMap maskData
    -- 5) Restore strings/comments
    .ok (restoreMasked renamed maskData)

/-- The rename map the engine resolves for an input (`none` when analysis
throws): masking followed by `analyzeCode` and `buildRenameMap` with the
options `smartRename` uses. -/
def renameMapOf (code : String) : Option (List (String × String)) :=
  (analyzeCode (maskStringsAndComments code).masked).toOption.map
    (fun a => buildRenameMap a ⟨true, true, true⟩)

/-! ### Well-formed token lists and the round-trip lemmas

Used to settle the idempotence claim about the identifier substitution. -/

/-- Does the token list not start with a run? -/
def notRunHead : List Tok → Bool
  | .run _ :: _ => false
  | _ => true

/-- Well-formedness of a token list: runs are non-empty maximal word runs
(never adjacent to another run), symbols are non-word characters. -/
def wfToks : List Tok → Bool
  | [] => true
  | .sym c :: t => !isWordChar c && wfToks t
  | .run r :: t => !r.isEmpty && r.all isWordChar && notRunHead t && wfToks t

theorem renderToks_pushRun (c : Char) (t : List Tok) :
    renderToks (pushRun c t) = c :: renderToks t := by
  cases t with
  | nil => rfl
  | cons hd tl => cases hd <;> rfl

theorem pushRun_of_notRunHead (c : Char) (t : List Tok)
    (h : notRunHead t = true) : pushRun c t = .run [c] :: t := by
  cases t with
  | nil => rfl
  | cons hd tl =>
    cases hd with
    | run r => simp [notRunHead] at h
    | sym d => rfl

theorem wf_pushRun (c : Char) (t : List Tok) (hc : isWordChar c = true)
    (ht : wfToks t = true) : wfToks (pushRun c t) = true := by
  cases t with
  | nil => simp [pushRun, wfToks, notRunHead, hc]
  | cons hd tl =>
    cases hd with
    | run r =>
      simp only [wfToks, Bool.and_eq_true] at ht
      simp [pushRun, wfToks, hc, ht.1.1.2, ht.1.2, ht.2]
    | sym d =>
      simp only [wfToks, Bool.and_eq_true] at ht
      simp [pushRun, wfToks, notRunHead, hc, ht.1, ht.2]

theorem wf_tokenize (cs : List Char) : wfToks (tokenize cs) = true := by
  induction cs with
  | nil => rfl
  | cons c cs ih =>
    by_cases hc : isWordChar c = true
    · simpa [tokenize, hc] using wf_pushRun c (tokenize cs) hc ih
    · simp only [Bool.not_eq_true] at hc
      simp [tokenize, hc, wfToks, ih]

theorem tokenize_word_append (r X : List Char) (hr : r ≠ [])
    (hw : r.all isWordChar = true) (hX : notRunHead (tokenize X) = true) :
    tokenize (r ++ X) = .run r :: tokenize X := by
  induction r with
  | nil => exact absurd rfl hr
  | cons c r ih =>
    simp only [List.all_cons, Bool.and_eq_true] at hw
    by_cases hr2 : r = []
    · subst hr2
      simp [tokenize, hw.1, pushRun_of_notRunHead _ _ hX]
    · have := ih hr2 hw.2
      simp [tokenize, hw.1, this, pushRun]

theorem tokenize_renderToks (ts : List Tok) (h : wfToks ts = true) :
    tokenize (renderToks ts) = ts := by
  induction ts with
  | nil => rfl
  | cons hd tl ih =>
    cases hd with
    | sym c =>
      simp only [wfToks, Bool.and_eq_true, Bool.not_eq_true'] at h
      simp [renderToks, tokenize, h.1, ih h.2]
    | run r =>
      simp only [wfToks, Bool.and_eq_true, Bool.not_eq_true'] at h
      have hne : r ≠ [] := by
        intro hc
        rw [hc] at h
        simp at h
      have hX : notRunHead (tokenize (renderToks tl)) = true := by
        rw [ih h.2]
        exact h.1.2
      rw [renderToks, tokenize_word_append r _ hne h.1.1.2 hX, ih h.2]

theorem lookupRename_mem {m : List (String × String)} {s v : String}
    (h : lookupRename m s = some v) : (s, v) ∈ m := by
  induction m with
  | nil => simp [lookupRename] at h
  | cons p rest ih =>
    obtain ⟨k, w⟩ := p
    by_cases hk : s = k
    · subst hk
      simp [lookupRename] at h
      simp [h]
    · simp only [lookupRename, if_neg hk] at h
      exact List.mem_cons_of_mem _ (ih h)

theorem substRun_keeps_word {m : List (String × String)}
    (hv : ∀ p ∈ m, p.2.data ≠ [] ∧ p.2.data.all isWordChar = true)
    (r : List Char) (hr : r ≠ []) (hw : r.all isWordChar = true) :
    substRun m r ≠ [] ∧ (substRun m r).all isWordChar = true := by
  unfold substRun
  cases h : lookupRename m (String.mk r) with
  | none => exact ⟨hr, hw⟩
  | some v => exact hv _ (lookupRename_mem h)

theorem notRunHead_mapRuns (m : List (String × String)) (ts : List Tok) :
    notRunHead (mapRuns m ts) = notRunHead ts := by
  cases ts with
  | nil => rfl
  | cons hd tl => cases hd <;> rfl

theorem wf_mapRuns (m : List (String × String)) (ts : List Tok)
    (h : wfToks ts = true)
    (hv : ∀ p ∈ m, p.2.data ≠ [] ∧ p.2.data.all isWordChar = true) :
    wfToks (mapRuns m ts) = true := by
  induction ts with
  | nil => rfl
  | cons hd tl ih =>
    cases hd with
    | sym c =>
      simp only [wfToks, Bool.and_eq_true] at h
      simp [mapRuns, wfToks, h.1, ih h.2]
    | run r =>
      simp only [wfToks, Bool.and_eq_true, Bool.not_eq_true'] at h
      have hne : r ≠ [] := by
        intro hc
        rw [hc] at h
        simp at h
      obtain ⟨h1, h2⟩ := substRun_keeps_word hv r hne h.1.1.2
      simp [mapRuns, wfToks, h1, h2, notRunHead_mapRuns, h.1.2, ih h.2]

theorem substRun_idem {m : List (String × String)}
    (hfresh : ∀ p ∈ m, lookupRename m p.2 = none) (r : List Char) :
    substRun m (substRun m r) = substRun m r := by
  unfold substRun
  cases h : lookupRename m (String.mk r) with
  | none => rw [h]
  | some v =>
    have : String.mk v.data = v := rfl
    rw [this, hfresh _ (lookupRename_mem h)]

theorem mapRuns_idem (m : List (String × String)) (ts : List Tok)
    (hfresh : ∀ p ∈ m, lookupRename m p.2 = none) :
    mapRuns m (mapRuns m ts) = mapRuns m ts := by
  induction ts with
  | nil => rfl
  | cons hd tl ih =>
    cases hd with
    | sym c => simp [mapRuns, ih]
    | run r => simp [mapRuns, ih, substRun_idem hfresh]

/-! ### Scan invariant for the function collector -/

/-- A function record is complete: its `end` line comes strictly after its
header line and that line does match `\bend\b`. -/
def funcClosed (allLines : List String) (f : FuncRec) : Bool :=
  decide (f.start < f.endLine) &&
    lineHasEndKeyword ((allLines.drop f.endLine).headD "")

theorem scanStep_stack (allLines : List String) (line : String) (li : Nat)
    (stack : List FuncFrame) (acc : List FuncRec)
    (hstack : ∀ fr ∈ stack, fr.start < li) :
    ∀ fr ∈ (scanStep allLines line li stack acc).1, fr.start < li + 1 := by
  intro fr hfr
  unfold scanStep at hfr
  rcases hh : headerMatch line with _ | ⟨fname, fargs⟩
  · rw [hh] at hfr
    simp only at hfr
    by_cases he : lineHasEndKeyword line = true
    · rw [if_pos he] at hfr
      cases stack with
      | nil => simp at hfr
      | cons f stackRest =>
        simp only at hfr
        exact Nat.lt_succ_of_lt (hstack fr (List.mem_cons_of_mem _ hfr))
    · rw [if_neg he] at hfr
      cases stack with
      | nil => simp at hfr
      | cons top stackRest =>
        simp only [List.mem_cons] at hfr
        rcases hfr with h | h
        · subst h
          exact Nat.lt_succ_of_lt (hstack top (List.mem_cons_self _ _))
        · exact Nat.lt_succ_of_lt (hstack fr (List.mem_cons_of_mem _ h))
  · rw [hh] at hfr
    simp only [List.mem_cons] at hfr
    rcases hfr with h | h
    · subst h
      exact Nat.lt_succ_self li
    · exact Nat.lt_succ_of_lt (hstack fr h)

theorem scanStep_acc (allLines : List String) (line : String) (li : Nat)
    (stack : List FuncFrame) (acc : List FuncRec)
    (hline : (allLines.drop li).headD "" = line)
    (hstack : ∀ fr ∈ stack, fr.start < li)
    (hacc : ∀ f ∈ acc, funcClosed allLines f = true) :
    ∀ f ∈ (scanStep allLines line li stack acc).2, funcClosed allLines f = true := by
  intro f hf
  unfold scanStep at hf
  rcases hh : headerMatch line with _ | ⟨fname, fargs⟩
  · rw [hh] at hf
    simp only at hf
    by_cases he : lineHasEndKeyword line = true
    · rw [if_pos he] at hf
      cases stack with
      | nil => exact hacc f hf
      | cons fr stackRest =>
        simp only [List.mem_append, List.mem_singleton] at hf
        rcases hf with h | h
        · exact hacc f h
        · subst h
          unfold funcClosed
          simp only [Bool.and_eq_true, decide_eq_true_eq]
          exact ⟨hstack fr (List.mem_cons_self _ _), by rw [hline]; exact he⟩
    · rw [if_neg he] at hf
      cases stack with
      | nil => exact hacc f hf
      | cons top stackRest => exact hacc f hf
  · rw [hh] at hf
    exact hacc f hf

theorem scanFunctions_closed (allLines : List String) :
    ∀ (rest : List String) (li : Nat) (stack : List FuncFrame)
      (acc : List FuncRec),
      allLines.drop li = rest →
      (∀ fr ∈ stack, fr.start < li) →
      (∀ f ∈ acc, funcClosed allLines f = true) →
      ∀ f ∈ scanFunctions allLines rest li stack acc,
        funcClosed allLines f = true := by
  intro rest
  induction rest with
  | nil =>
    intro li stack acc _ _ hacc f hf
    exact hacc f hf
  | cons line rest ih =>
    intro li stack acc hrest hstack hacc f hf
    have hline : (allLines.drop li).headD "" = line := by rw [hrest]; rfl
    have hdrop : allLines.drop (li + 1) = rest := by
      have : allLines.drop (li + 1) = (allLines.drop li).drop 1 := by
        rw [List.drop_drop, Nat.add_comm]
      rw [this, hrest]
      rfl
    simp only [scanFunctions] at hf
    exact ih (li + 1) _ _ hdrop
      (scanStep_stack allLines line li stack acc hstack)
      (scanStep_acc allLines line li stack acc hline hstack hacc) f hf

/-! ### Claim theorems -/

/-- Claim C7 (refuted, code bug): `rename` does throw on some well-formed
inputs.  On `local a = constructor.x` the property pass reads
`propertyUsages["constructor"]`, which on a plain object yields the
inherited `Object.prototype.constructor` — truthy, so `|| new Set()` never
runs and `.add` is called on a function: a `TypeError` escapes
`smartRename`.  The remaining parts of the claim do hold: the empty input
is returned unchanged, and malformed Lua such as an unterminated string
literal degrades gracefully instead of being rejected. -/
theorem c7_rename_throws_on_prototype_member :
    smartRename "local a = constructor.x" =
      .error "TypeError: propertyUsages[obj].add is not a function" ∧
    smartRename "" = .ok "" ∧
    smartRename "local x = \"oops" = .ok "local Value = \"oops" := by
  refine ⟨by decide, by decide, by decide⟩

/-- Claim C2 (refuted, code bug): on `local v = game:GetService("Players")`
the engine renames `v` to `Value`, not `Players`.  The string literal is
masked before `analyzeCode` runs, so the right-hand side seen by
`inferFromRHS` is `game:GetService(__MASK_STR_0__)` and the service-lookup
regex — which requires a quote character — can never match; the rule is
dead code in `smartRename`. -/
theorem c2_service_rule_never_fires :
    renameMapOf "local v = game:GetService(\"Players\")" = some [("v", "Value")] ∧
    smartRename "local v = game:GetService(\"Players\")" =
      .ok "local Value = game:GetService(\"Players\")" := by
  constructor
  · decide
  · decide

/-- Claim C1 (refuted, code bug): literal preservation fails when the input
contains text shaped like a placeholder prefix.  For the input
`-- a\n__MASK_COMMENT_0"y"` the masker records the comment `-- a` (index 0)
and the string `"y"` (index 1); in the masked buffer the raw source text
`__MASK_COMMENT_0` abuts the string's placeholder, forming a second
occurrence of the key `__MASK_COMMENT_0__`, so `restoreMasked` rewrites it
to the comment text and consumes the first two characters of the string's
placeholder — the string literal `"y"` never appears in the output. -/
theorem c1_literal_preservation_fails :
    (maskStringsAndComments "-- a\n__MASK_COMMENT_0\"y\"").parts.map MaskPart.text =
      ["-- a", "\"y\""] ∧
    smartRename "-- a\n__MASK_COMMENT_0\"y\"" = .ok "-- a\n-- aMASK_STR_1__" ∧
    containsSubstr ((smartRename "-- a\n__MASK_COMMENT_0\"y\"").toOption.getD "")
      "\"y\"" = false := by
  refine ⟨by decide, by decide, by decide⟩

/-- Claim C10 (refuted, code bug): masking immediately followed by
restoration is not the identity.  For `__MASK_STR_0"y"` the raw source text
`__MASK_STR_0` abuts the placeholder of the string `"y"`, so the leftmost
occurrence of the key `__MASK_STR_0__` found by `restoreMasked` starts in
the raw text, and the round trip yields `"y"MASK_STR_0__`.  The rename map
of this input is empty, so `rename` also fails to be the identity under an
empty map. -/
theorem c10_mask_restore_roundtrip_fails :
    restoreMasked (maskStringsAndComments "__MASK_STR_0\"y\"").masked
      (maskStringsAndComments "__MASK_STR_0\"y\"") = "\"y\"MASK_STR_0__" ∧
    renameMapOf "__MASK_STR_0\"y\"" = some [] ∧
    smartRename "__MASK_STR_0\"y\"" = .ok "\"y\"MASK_STR_0__" ∧
    ("\"y\"MASK_STR_0__" : String) ≠ "__MASK_STR_0\"y\"" := by
  refine ⟨by decide, by decide, by decide, by decide⟩

/-- Claim C3 (refuted, code bug): the final map is not injective.  On
`local a = x.if` / `local b = y._if` the member-chain rule names `a ↦ if`
and `b ↦ _if` (both fresh for `uniqueName`), and the keyword-collision pass
afterwards rewrites `if` to `_if` without consulting the used-names set, so
two distinct old names end up mapped to the same new name. -/
theorem c3_injectivity_fails :
    renameMapOf "local a = x.if\nlocal b = y._if" =
      some [("a", "_if"), ("b", "_if")] := by
  decide

/-- Claim C4 (refuted, code bug): a generated name can equal a Lua reserved
keyword.  The `keywords` set of `buildRenameMap` stops at `until` and omits
`elseif`, `and`, `or`, `not`, `in` and `break`; on `local a = x.and` the
member-chain rule names `a ↦ and` and the keyword pass does not rewrite it,
so the output declares a variable literally named `and`. -/
theorem c4_keyword_safety_fails :
    renameMapOf "local a = x.and" = some [("a", "and")] ∧
    memStr keywordsList "and" = false ∧
    smartRename "local a = x.and" = .ok "local and = x.and" := by
  refine ⟨by decide, by decide, by decide⟩

/-- Claim C5 (refuted, code bug): a generated name can equal a protected
identifier.  `buildRenameMap` adds `protected_names` to `usedNames` only
after all three renaming loops have finished, so the seeding has no effect
on the returned map: on `local a = x.game` the member-chain rule names
`a ↦ game` and nothing stops it. -/
theorem c5_protected_name_collision :
    renameMapOf "local a = x.game" = some [("a", "game")] ∧
    memStr protectedNames "game" = true ∧
    smartRename "local a = x.game" = .ok "local game = x.game" := by
  refine ⟨by decide, by decide, by decide⟩

/-- Claim C6 counterexample: on `local x = 5` / `local y = 10` both locals
are classified `Number`, but the second resolves to `Number1`, not
`Number2`: the `uniqueName` suffix counter starts at 1. -/
theorem c6_suffix_starts_at_one :
    (renameMapOf "local x = 5\nlocal y = 10").map (fun m => lookupRename m "y") =
      some (some "Number1") ∧
    some "Number1" ≠ some ("Number2" : String) := by
  refine ⟨by decide, by decide⟩

/-- Claim C6 (amended): the first occurrence of a candidate label gets the
bare label and subsequent occurrences append the running counter starting
at 1: two unrelated `local x = 5` and `local y = 10` are both classified
`Number` and resolved to `Number` and `Number1` in source order. -/
theorem c6_amended_numeric_suffixing :
    renameMapOf "local x = 5\nlocal y = 10" =
      some [("x", "Number"), ("y", "Number1")] ∧
    smartRename "local x = 5\nlocal y = 10" =
      .ok "local Number = 5\nlocal Number1 = 10" := by
  refine ⟨by decide, by decide⟩

/-- Claim C8 counterexample: applying the substitution twice with the same
already-resolved map differs from applying it once.  On
`local a = x.b\nlocal b = 1` the engine resolves the map `a ↦ b`, `b ↦
Number`: the new name of `a` equals the old name of `b`, so a second
application renames the already-renamed occurrences again. -/
theorem c8_double_application_differs :
    renameMapOf "local a = x.b\nlocal b = 1" = some [("a", "b"), ("b", "Number")] ∧
    applyRenamesMaskSafe
      (applyRenamesMaskSafe
        (maskStringsAndComments "local a = x.b\nlocal b = 1").masked
        ((renameMapOf "local a = x.b\nlocal b = 1").getD [])
        (maskStringsAndComments "local a = x.b\nlocal b = 1"))
      ((renameMapOf "local a = x.b\nlocal b = 1").getD [])
      (maskStringsAndComments "local a = x.b\nlocal b = 1") ≠
    applyRenamesMaskSafe
      (maskStringsAndComments "local a = x.b\nlocal b = 1").masked
      ((renameMapOf "local a = x.b\nlocal b = 1").getD [])
      (maskStringsAndComments "local a = x.b\nlocal b = 1") := by
  refine ⟨by decide, by decide⟩

/-- The main branch of `replaceIdentifiersInSegment`. -/
theorem replaceSeg_eq {seg : String} {m : List (String × String)}
    (hs : seg ≠ "") (hm : m ≠ []) :
    replaceIdentifiersInSegment seg m =
      String.mk (renderToks (mapRuns m (tokenize seg.data))) := by
  unfold replaceIdentifiersInSegment
  rw [if_neg hs, if_neg hm]

/-- Claim C8 (amended): the identifier substitution applied to every
non-placeholder segment is idempotent provided no new name of the map is
also an old name (the map values are identifiers, i.e. non-empty word-char
strings).  The engine can resolve maps in which a new name equals another
old name, and exactly then double application differs. -/
theorem c8_amended_idempotent_when_fresh (renameMap : List (String × String))
    (seg : String)
    (hv : ∀ p ∈ renameMap, p.2.data ≠ [] ∧ p.2.data.all isWordChar = true)
    (hfresh : ∀ p ∈ renameMap, lookupRename renameMap p.2 = none) :
    replaceIdentifiersInSegment (replaceIdentifiersInSegment seg renameMap) renameMap =
      replaceIdentifiersInSegment seg renameMap := by
  by_cases hs : seg = ""
  · subst hs
    rfl
  · by_cases hm : renameMap = []
    · subst hm
      simp [replaceIdentifiersInSegment]
    · rw [replaceSeg_eq hs hm]
      by_cases hout :
          String.mk (renderToks (mapRuns renameMap (tokenize seg.data))) = ""
      · rw [hout]
        rfl
      · rw [replaceSeg_eq hout hm]
        have hwf : wfToks (mapRuns renameMap (tokenize seg.data)) = true :=
          wf_mapRuns renameMap _ (wf_tokenize seg.data) hv
        have hdata :
            (String.mk (renderToks (mapRuns renameMap (tokenize seg.data)))).data =
              renderToks (mapRuns renameMap (tokenize seg.data)) := rfl
        rw [hdata, tokenize_renderToks _ hwf, mapRuns_idem renameMap _ hfresh]

/-- Witness for the amended C8 theorem at a concrete map and segment. -/
theorem c8_amended_idempotent_when_fresh_witness :
    (∀ p ∈ [(("a" : String), ("Counter" : String))],
        p.2.data ≠ [] ∧ p.2.data.all isWordChar = true) ∧
    (∀ p ∈ [(("a" : String), ("Counter" : String))],
        lookupRename [(("a" : String), ("Counter" : String))] p.2 = none) ∧
    replaceIdentifiersInSegment
        (replaceIdentifiersInSegment "local a = a + b" [("a", "Counter")])
        [("a", "Counter")] =
      replaceIdentifiersInSegment "local a = a + b" [("a", "Counter")] :=
  ⟨by decide, by decide,
    c8_amended_idempotent_when_fresh [("a", "Counter")] "local a = a + b"
      (by decide) (by decide)⟩

/-- Claim C9: the scanner drops partial objects.  In general every emitted
function record has its `end` strictly after its header and that line does
match `\bend\b`; concretely, a stray `end` with no open function is ignored
and scanning continues (the following local is still collected), and a
function left unterminated at end of input yields no record. -/
theorem c9_no_partial_function_records :
    (∀ lines : List String,
      ((scanFunctions lines lines 0 [] []).all (funcClosed lines)) = true) ∧
    (analyzeCode "end\nlocal a = 1").toOption.map CodeAnalysis.functions = some [] ∧
    (analyzeCode "end\nlocal a = 1").toOption.map CodeAnalysis.locals =
      some [⟨"a", "1", 1⟩] ∧
    (analyzeCode "function f(x)\nreturn x").toOption.map CodeAnalysis.functions =
      some [] := by
  refine ⟨?_, by decide, by decide, by decide⟩
  intro lines
  rw [List.all_eq_true]
  intro f hf
  exact scanFunctions_closed lines lines 0 [] [] (by simp) (by simp) (by simp) f hf

end LuaBeautifier
